import Mathlib

/-!
# gofr-play: migrations registry, migration runner and paginated user listing

A shallow embedding of

* `migrations/all.go` and the three migration files (the registry `All` and
  the `UP` actions),
* `userEntity.GetAll` of `main.go` (the pagination arithmetic and the query
  it issues),

together with a model of the migration runner that `main` hands the registry
to. Datastore handles are explicit state-passing functions over a store
state `σ`; a Go `error` is `Option Error` (`none` is `nil`).
-/

namespace GofrPlay

/-! ## Framework types used by the migrations -/

/-- Go error values: a non-nil error is its message. -/
abbrev Error := String

/-- The value `database/sql` hands back from `Exec` next to the error. -/
structure SQLResult where
  lastInsertId : Int
  rowsAffected : Int
deriving DecidableEq

/-- The part of `migration.Datasource` (declared by the gofr framework) that the
migrations call: `d.SQL.Exec(query)` and
`d.Redis.Set(ctx, key, value, expiration).Result()`, each a transition of the
store state that yields a value or an error. -/
structure Datasource (σ : Type) where
  SQLExec : String → σ → σ × Except Error SQLResult
  RedisSet : String → Int → Int → σ → σ × Except Error String

/-- The struct `migration.Migrate` (declared by the gofr framework), built in the
migrations as `migration.Migrate{UP: func(d migration.Datasource) error {...}}`:
the action returns the store it leaves and the error (`none` is `nil`). -/
structure Migrate (σ : Type) where
  UP : Datasource σ → σ → σ × Option Error

/-! ## migrations/20240226153000_create_employee_table.go -/

/-- The constant `createTable`. -/
def createTable : String :=
  "CREATE TABLE IF NOT EXISTS user (\n\tid BIGINT PRIMARY KEY AUTO_INCREMENT,\n\tname VARCHAR(200) not null ,\n\tage INT not null\n);"

/-- The function `createTableEmployee`: `_, err := d.SQL.Exec(createTable)`, then
`return err` when `err != nil` and `return nil` otherwise. -/
def createTableEmployee {σ : Type} : Migrate σ :=
  { UP := fun d s =>
      match d.SQLExec createTable s with
      | (s', Except.error err) => (s', some err)
      | (s', Except.ok _) => (s', none) }

/-! ## migrations/20241219153000_init_redis_gift_id.go -/

/-- The function `initRedisLuaScript`:
`_, err := d.Redis.Set(context.Background(), "gift_counter", 100000, 0).Result()`,
then `return err` when `err != nil` and `return nil` otherwise. -/
def initRedisLuaScript {σ : Type} : Migrate σ :=
  { UP := fun d s =>
      match d.RedisSet "gift_counter" 100000 0 s with
      | (s', Except.error err) => (s', some err)
      | (s', Except.ok _) => (s', none) }

/-! ## migrations/20241220153000_init_player.go -/

/-- The constant `createPlayerTableSQL`. -/
def createPlayerTableSQL : String :=
  "CREATE TABLE IF NOT EXISTS t_player (\n    id INTEGER PRIMARY KEY AUTOINCREMENT,\n    name TEXT NOT NULL,\n    create_at DATETIME NOT NULL DEFAULT CURRENT_TIMESTAMP,\n\tupdate_at DATETIME NOT NULL DEFAULT CURRENT_TIMESTAMP\n);\n\nCREATE TRIGGER update_player\nAFTER UPDATE ON t_player\nFOR EACH ROW\nBEGIN\n    UPDATE t_player SET update_at = CURRENT_TIMESTAMP WHERE id = OLD.id;\nEND;\n\nINSERT INTO t_player(name) VALUES (\x27initial_record\x27);\nUPDATE sqlite_sequence SET seq = 99999 WHERE name = \x27t_player\x27;\nDELETE FROM t_player WHERE name = \x27initial_record\x27;\n"

/-- The function `createPlayerTable`: `_, err := d.SQL.Exec(createPlayerTableSQL)`
and `return err`. -/
def createPlayerTable {σ : Type} : Migrate σ :=
  { UP := fun d s =>
      match d.SQLExec createPlayerTableSQL s with
      | (s', Except.error err) => (s', some err)
      | (s', Except.ok _) => (s', none) }

/-! ## migrations/all.go -/

/-- The function `All`: the key/value pairs of the map literal it returns,
in the order they are written. -/
def All {σ : Type} : List (Int × Migrate σ) :=
  [ (20240226153000, createTableEmployee),
    (20241219153001, initRedisLuaScript) ]

/-- The version keys of a registry. -/
def keys {σ : Type} (R : List (Int × Migrate σ)) : List Int :=
  R.map Prod.fst

/-! ## A model of the stores the migrations write to -/

/-- Modelled from the spec: the state of the stores behind the datasource handles
(services outside the sources): the set of SQL tables, by name, and the Redis
key-value map. -/
structure Store where
  tables : List String
  redis : List (String × Int)
deriving DecidableEq

/-- White space between the words of a statement. -/
def isSpace (c : Char) : Bool :=
  c == ' ' || c == '\n' || c == '\t' || c == '\r'

/-- The words of a statement: maximal runs of characters that are neither
white space nor an opening parenthesis. `cur` is the current word, reversed. -/
def wordsAux : List Char → List Char → List (List Char)
  | [], cur => if cur.isEmpty then [] else [cur.reverse]
  | c :: cs, cur =>
    if isSpace c || c == '(' then
      (if cur.isEmpty then wordsAux cs [] else cur.reverse :: wordsAux cs [])
    else wordsAux cs (c :: cur)

/-- The table named by a statement that starts `CREATE TABLE IF NOT EXISTS`. -/
def createTableName (q : String) : Option String :=
  match wordsAux q.data [] with
  | a :: b :: c :: d :: e :: n :: _ =>
    if [a, b, c, d, e] =
        ["CREATE".data, "TABLE".data, "IF".data, "NOT".data, "EXISTS".data] then
      some (String.mk n)
    else none
  | _ => none

/-- Modelled from the spec: the SQL database and the Redis server behind the
datasource handles are services outside the sources. `Exec` of a single
`CREATE TABLE IF NOT EXISTS t` statement adds `t` to the set of tables unless
it is there already (then it is a no-op) and any other text is refused;
`Set key value` binds `key` to `value` in the Redis key-value map (expiration
0 means the key does not expire). -/
def storeDatasource : Datasource Store :=
  { SQLExec := fun q s =>
      if q.data.count ';' ≤ 1 then
        match createTableName q with
        | some t =>
          (if t ∈ s.tables then s else { s with tables := t :: s.tables },
            Except.ok ⟨0, 0⟩)
        | none => (s, Except.error "unsupported statement")
      else (s, Except.error "unsupported statement"),
    RedisSet := fun k v _ s =>
      ({ s with redis := (k, v) :: s.redis.filter (fun p => p.1 ≠ k) },
        Except.ok "OK") }

/-! ## main.go: `userEntity.GetAll` -/

/-- Modelled from the spec: the `status` of a ledger entry of the migration
runner, "enum: applied, failed". -/
inductive Status where
  | applied
  | failed
deriving DecidableEq

/-- Modelled from the spec: one entry of the ledger of the migration runner, with
the fields `version`, `applied_at` and `status`. -/
structure LedgerEntry where
  version : Int
  appliedAt : Nat
  status : Status
deriving DecidableEq

/-- Modelled from the spec: the migration ledger of the runner, "a durable record
of which versions have been applied, plus a timestamp and status per entry". -/
abbrev Ledger := List LedgerEntry

/-- Modelled from the spec: the keys of the ledger of the migration runner, the
versions it has an entry for. -/
def ledgerKeys (L : Ledger) : List Int :=
  L.map LedgerEntry.version

/-- Modelled from the spec: what one run of the migration runner leaves behind: the ledger, the store, the `UP`
invocations in the order they were made (version and outcome), and the result
(`none` is success, otherwise the failing version and the underlying error). -/
structure RunOutcome (σ : Type) where
  ledger : Ledger
  store : σ
  invoked : List (Int × Option Error)
  result : Option (Int × Error)

/-- Modelled from the spec: the unapplied set of the migration runner (the
runner is framework code, absent from the sources): "compute the set of
unapplied versions (registry keys minus ledger keys), sort them ascending".
A version is present in the ledger when the ledger has an entry for it, as in
the glossary: "registry versions not present in the ledger". -/
def unapplied {σ : Type} (R : List (Int × Migrate σ)) (L : Ledger) : List Int :=
  (((keys R).filter (fun v => v ∉ ledgerKeys L)).dedup).insertionSort (· ≤ ·)

/-- Modelled from the spec: the ledger entry the migration runner writes for a
version whose `UP` succeeded: "record the version, timestamp, and applied
status". -/
def appliedEntry (now : Int → Nat) (v : Int) : LedgerEntry :=
  ⟨v, now v, Status.applied⟩

/-- Modelled from the spec: the loop of the migration runner over the unapplied
versions (the runner is framework code, absent from the sources): "execute
each `UP` action in that order, stopping at the first failure"; on success
"record the version, timestamp, and applied status in the ledger"; on failure
"abort the run, and surface the error identifying the failing version", the
failing version being left pending. `now v` is the time at which `v` is
recorded. -/
def applyEach {σ : Type} (R : List (Int × Migrate σ)) (d : Datasource σ) (now : Int → Nat) :
    List Int → Ledger → σ → RunOutcome σ
  | [], L, s => ⟨L, s, [], none⟩
  | v :: vs, L, s =>
    match R.lookup v with
    | none => applyEach R d now vs L s
    | some m =>
      match m.UP d s with
      | (s', none) =>
        let o := applyEach R d now vs (L ++ [appliedEntry now v]) s'
        { o with invoked := (v, none) :: o.invoked }
      | (s', some e) => ⟨L, s', [(v, some e)], some (v, e)⟩

/-- Modelled from the spec: the operation `Run(registry, datasources)` of the
migration runner (the runner is framework code, absent from the sources; `main`
only calls it), for a datastore that is connected and ready; the ledger `L`
and the store `s` are the persistent state it reads and writes. -/
def Run {σ : Type} (R : List (Int × Migrate σ)) (d : Datasource σ) (now : Int → Nat)
    (L : Ledger) (s : σ) : RunOutcome σ :=
  applyEach R d now (unapplied R L) L s

/-! ## The timestamp convention for versions -/

/-- Leap years of the Gregorian calendar. -/
def isLeapYear (y : Nat) : Bool :=
  (y % 4 == 0 && y % 100 != 0) || y % 400 == 0

/-- The number of days of month `m` (1..12) of year `y`; 0 for any other `m`. -/
def daysInMonth (y m : Nat) : Nat :=
  if m = 2 then (if isLeapYear y then 29 else 28)
  else if m = 4 ∨ m = 6 ∨ m = 9 ∨ m = 11 then 30
  else if 1 ≤ m ∧ m ≤ 12 then 31
  else 0

/-- The digit groups of a version read as `YYYYMMDDHHMMSS`. -/
structure Stamp where
  year : Nat
  month : Nat
  day : Nat
  hour : Nat
  minute : Nat
  second : Nat
deriving DecidableEq

/-- The digit groups of `v`. -/
def decodeStamp (v : Int) : Stamp :=
  let n := v.toNat
  ⟨n / 10000000000, n / 100000000 % 100, n / 1000000 % 100,
    n / 10000 % 100, n / 100 % 100, n % 100⟩

/-- The version convention `YYYYMMDDHHMMSS` of the spec, a property with no
counterpart in the code: a positive integer of 14 decimal digits whose groups
are a calendar date and a time of day. -/
def isTimestampVersion (v : Int) : Bool :=
  let t := decodeStamp v
  decide (0 < v) && decide (10000000000000 ≤ v) && decide (v < 100000000000000) &&
  decide (1 ≤ t.month) && decide (t.month ≤ 12) &&
  decide (1 ≤ t.day) && decide (t.day ≤ daysInMonth t.year t.month) &&
  decide (t.hour < 24) && decide (t.minute < 60) && decide (t.second < 60)

/-- Chronological order of two stamps: `a` is strictly earlier than `b`. -/
def Stamp.earlier (a b : Stamp) : Prop :=
  a.year < b.year ∨ (a.year = b.year ∧ (a.month < b.month ∨ (a.month = b.month ∧
    (a.day < b.day ∨ (a.day = b.day ∧ (a.hour < b.hour ∨ (a.hour = b.hour ∧
      (a.minute < b.minute ∨ (a.minute = b.minute ∧ a.second < b.second)))))))))

/-! ## Example registries -/

/-- A migration whose `UP` succeeds and leaves the store as it is. -/
def migOk {σ : Type} : Migrate σ :=
  { UP := fun _ s => (s, none) }

/-- A migration whose `UP` fails. -/
def migFail {σ : Type} : Migrate σ :=
  { UP := fun _ s => (s, some "up failed") }

/-- The registry `{100: migA (succeeds), 200: migB (fails), 300: migC (succeeds)}`. -/
def registryABC : List (Int × Migrate Store) :=
  [(100, migOk), (200, migFail), (300, migOk)]

/-- The registry `{100: migA}`. -/
def registryA : List (Int × Migrate Store) :=
  [(100, migOk)]

/-- A registry whose migrations all succeed, written out of order. -/
def registryOk : List (Int × Migrate Store) :=
  [(300, migOk), (100, migOk), (200, migOk)]

/-- A registry whose version 100 fails whenever its `UP` is run and whose
version 200 succeeds. -/
def registryMixed : List (Int × Migrate Store) :=
  [(100, migFail), (200, migOk)]

/-- A ledger in which version 100 is already applied. -/
def ledger100 : Ledger := [⟨100, 3, Status.applied⟩]

/-- A ledger in which version 200 is already applied. -/
def ledger200 : Ledger := [⟨200, 7, Status.applied⟩]

/-- The empty store. -/
def emptyStore : Store := ⟨[], []⟩

/-- A clock for the examples. -/
def clock0 : Int → Nat := fun _ => 0

/-! ## Facts about the registry `All` -/

theorem createTableName_createTable : createTableName createTable = some "user" := by
  decide

theorem createTable_single_statement : createTable.data.count ';' ≤ 1 := by
  decide

theorem mem_All_iff {σ : Type} (v : Int) (m : Migrate σ) :
    (v, m) ∈ (All : List (Int × Migrate σ)) ↔
      (v = 20240226153000 ∧ m = createTableEmployee) ∨
      (v = 20241219153001 ∧ m = initRedisLuaScript) := by
  simp [All]

theorem createTableEmployee_UP_store (s : Store) :
    createTableEmployee.UP storeDatasource s =
      (if "user" ∈ s.tables then s else { s with tables := "user" :: s.tables }, none) := by
  simp [createTableEmployee, storeDatasource, createTableName_createTable,
    createTable_single_statement]

theorem initRedisLuaScript_UP_store (s : Store) :
    initRedisLuaScript.UP storeDatasource s =
      ({ s with redis := ("gift_counter", 100000) ::
                  s.redis.filter (fun p => p.1 ≠ "gift_counter") }, none) := by
  simp [initRedisLuaScript, storeDatasource]

/-- C4: the registry built by `All` has unique versions: its keys are pairwise
distinct, every version has exactly one entry or none, and the number of
registered migrations is the number of distinct version keys. -/
theorem All_versions_unique (σ : Type) :
    (keys (All : List (Int × Migrate σ))).Nodup ∧
    (∀ v : Int, ((All : List (Int × Migrate σ)).filter (fun e => e.1 = v)).length ≤ 1) ∧
    (All : List (Int × Migrate σ)).length =
      (keys (All : List (Int × Migrate σ))).dedup.length := by
  refine ⟨by simp [keys, All], ?_, by simp [keys, All]⟩
  intro v
  simp only [All, List.filter_cons, List.filter_nil]
  by_cases h1 : v = 20240226153000
  · subst h1; simp
  · by_cases h2 : v = 20241219153001
    · subst h2; simp
    · have h1' : ¬ (20240226153000 : Int) = v := fun h => h1 h.symm
      have h2' : ¬ (20241219153001 : Int) = v := fun h => h2 h.symm
      simp [h1', h2']

/-- C5: for a migration registered in `All`, any datasource and any store
state, the `UP` action returns the error of its datastore call unchanged (the
`Exec` of `createTable` for version 20240226153000, the `Set` of `gift_counter`
for version 20241219153001), returns an error only when that call fails, and
returns nil exactly when the call succeeds. -/
theorem UP_returns_datastore_error {σ : Type} (d : Datasource σ) (s : σ)
    (v : Int) (m : Migrate σ) (h : (v, m) ∈ (All : List (Int × Migrate σ))) :
    (v = 20240226153000 ∧
      (m.UP d s).1 = (d.SQLExec createTable s).1 ∧
      (∀ err, (m.UP d s).2 = some err ↔ (d.SQLExec createTable s).2 = Except.error err) ∧
      ((m.UP d s).2 = none ↔ ∃ r, (d.SQLExec createTable s).2 = Except.ok r)) ∨
    (v = 20241219153001 ∧
      (m.UP d s).1 = (d.RedisSet "gift_counter" 100000 0 s).1 ∧
      (∀ err, (m.UP d s).2 = some err ↔
        (d.RedisSet "gift_counter" 100000 0 s).2 = Except.error err) ∧
      ((m.UP d s).2 = none ↔ ∃ r, (d.RedisSet "gift_counter" 100000 0 s).2 = Except.ok r)) := by
  rcases (mem_All_iff v m).1 h with ⟨hv, hm⟩ | ⟨hv, hm⟩
  · left
    subst hm
    refine ⟨hv, ?_⟩
    simp only [createTableEmployee]
    rcases hcall : d.SQLExec createTable s with ⟨s', r⟩
    cases r <;> simp
  · right
    subst hm
    refine ⟨hv, ?_⟩
    simp only [initRedisLuaScript]
    rcases hcall : d.RedisSet "gift_counter" 100000 0 s with ⟨s', r⟩
    cases r <;> simp

/-- Witness for C5: the table migration on the model datasource, empty store. -/
theorem UP_returns_datastore_error_witness :
    ((20240226153000, createTableEmployee) ∈ (All : List (Int × Migrate Store))) ∧
    ((createTableEmployee.UP storeDatasource emptyStore).2 = none ↔
      ∃ r, (storeDatasource.SQLExec createTable emptyStore).2 = Except.ok r) := by
  have hmem : ((20240226153000 : Int), (createTableEmployee : Migrate Store)) ∈
      (All : List (Int × Migrate Store)) := by simp [All]
  refine ⟨hmem, ?_⟩
  rcases UP_returns_datastore_error storeDatasource emptyStore 20240226153000
      createTableEmployee hmem with ⟨_, _, _, h⟩ | ⟨hv, _⟩
  · exact h
  · exact absurd hv (by decide)

/-- C6: on the model of the stores, every migration registered in `All` is safe
to retry: after a first run of its `UP` that succeeded, a second run succeeds
too and leaves the store exactly as the first run left it. -/
theorem UP_retry_safe (s : Store) (v : Int) (m : Migrate Store)
    (h : (v, m) ∈ (All : List (Int × Migrate Store)))
    (hfirst : (m.UP storeDatasource s).2 = none) :
    m.UP storeDatasource (m.UP storeDatasource s).1 =
      ((m.UP storeDatasource s).1, none) := by
  rcases (mem_All_iff v m).1 h with ⟨_, hm⟩ | ⟨_, hm⟩
  · subst hm
    simp only [createTableEmployee_UP_store]
    by_cases ht : "user" ∈ s.tables
    · simp [ht]
    · simp [ht]
  · subst hm
    simp only [initRedisLuaScript_UP_store]
    simp [List.filter_filter]

/-- Witness for C6: the Redis migration run twice from the empty store. -/
theorem UP_retry_safe_witness :
    (((20241219153001 : Int), (initRedisLuaScript : Migrate Store)) ∈
      (All : List (Int × Migrate Store))) ∧
    (initRedisLuaScript.UP storeDatasource emptyStore).2 = none ∧
    initRedisLuaScript.UP storeDatasource
        (initRedisLuaScript.UP storeDatasource emptyStore).1 =
      ((initRedisLuaScript.UP storeDatasource emptyStore).1, none) :=
  ⟨by simp [All], by decide,
    UP_retry_safe emptyStore 20241219153001 initRedisLuaScript (by simp [All]) (by decide)⟩

/-! ## Facts about the runner -/

theorem lookup_of_mem_keys {σ : Type} (R : List (Int × Migrate σ)) (v : Int)
    (h : v ∈ keys R) : ∃ m, R.lookup v = some m ∧ (v, m) ∈ R := by
  induction R with
  | nil => simp [keys] at h
  | cons a R ih =>
    obtain ⟨k, m⟩ := a
    by_cases hk : v = k
    · subst hk
      exact ⟨m, by simp, by simp⟩
    · have hmem : v ∈ keys R := by
        simpa [keys, hk] using h
      obtain ⟨m', h1, h2⟩ := ih hmem
      refine ⟨m', ?_, by simp [h2]⟩
      have hne : (v == k) = false := by simpa using hk
      simp [List.lookup_cons, hne, h1]

theorem mem_unapplied {σ : Type} (R : List (Int × Migrate σ)) (L : Ledger) (v : Int) :
    v ∈ unapplied R L ↔ v ∈ keys R ∧ v ∉ ledgerKeys L := by
  simp [unapplied, List.mem_insertionSort, List.mem_dedup, List.mem_filter]

theorem unapplied_nodup {σ : Type} (R : List (Int × Migrate σ)) (L : Ledger) :
    (unapplied R L).Nodup :=
  (List.perm_insertionSort _ _).nodup_iff.2 (List.nodup_dedup _)

theorem unapplied_sorted {σ : Type} (R : List (Int × Migrate σ)) (L : Ledger) :
    (unapplied R L).Sorted (· < ·) :=
  (List.sorted_insertionSort _ _).lt_of_le (unapplied_nodup R L)

theorem unapplied_eq_nil {σ : Type} (R : List (Int × Migrate σ)) (L : Ledger)
    (h : ∀ v ∈ keys R, v ∈ ledgerKeys L) : unapplied R L = [] := by
  apply List.eq_nil_iff_forall_not_mem.2
  intro v hv
  have hv' := (mem_unapplied R L v).1 hv
  exact hv'.2 (h v hv'.1)

/-- The two ways a pass over versions of the registry can end: every `UP`
succeeded, or the pass stopped at the first version `V` whose `UP` failed. -/
theorem applyEach_cases {σ : Type} (R : List (Int × Migrate σ)) (d : Datasource σ)
    (now : Int → Nat) :
    ∀ (vs : List Int) (L : Ledger) (s : σ), (∀ v ∈ vs, v ∈ keys R) →
      ((applyEach R d now vs L s).result = none ∧
        (applyEach R d now vs L s).invoked = vs.map (fun v => (v, none)) ∧
        (applyEach R d now vs L s).ledger = L ++ vs.map (appliedEntry now)) ∨
      (∃ pre V post e m t, vs = pre ++ V :: post ∧ (V, m) ∈ R ∧ (m.UP d t).2 = some e ∧
        (applyEach R d now vs L s).result = some (V, e) ∧
        (applyEach R d now vs L s).invoked = pre.map (fun v => (v, none)) ++ [(V, some e)] ∧
        (applyEach R d now vs L s).ledger = L ++ pre.map (appliedEntry now)) := by
  intro vs
  induction vs with
  | nil =>
    intro L s _
    left
    simp [applyEach]
  | cons v vs ih =>
    intro L s hsub
    obtain ⟨m, hlook, hmem⟩ := lookup_of_mem_keys R v (hsub v (by simp))
    have hsub' : ∀ w ∈ vs, w ∈ keys R := fun w hw => hsub w (by simp [hw])
    rcases hup : m.UP d s with ⟨s', r⟩
    cases r with
    | none =>
      have hstep : applyEach R d now (v :: vs) L s =
          { applyEach R d now vs (L ++ [appliedEntry now v]) s' with
            invoked := (v, none) :: (applyEach R d now vs (L ++ [appliedEntry now v]) s').invoked } := by
        simp [applyEach, hlook, hup]
      rcases ih (L ++ [appliedEntry now v]) s' hsub' with ⟨h1, h2, h3⟩ | ⟨pre, V, post, e, m', t, h0, hm', he, h1, h2, h3⟩
      · left
        rw [hstep]
        simp [h1, h2, h3]
      · right
        refine ⟨v :: pre, V, post, e, m', t, by simp [h0], hm', he, ?_, ?_, ?_⟩
        · rw [hstep]; simp [h1]
        · rw [hstep]; simp [h2]
        · rw [hstep]; simp [h3]
    | some e =>
      right
      refine ⟨[], v, vs, e, m, s, by simp, hmem, by simp [hup], ?_, ?_, ?_⟩ <;>
        simp [applyEach, hlook, hup]

theorem unapplied_subset_keys {σ : Type} (R : List (Int × Migrate σ)) (L : Ledger) :
    ∀ v ∈ unapplied R L, v ∈ keys R :=
  fun v hv => ((mem_unapplied R L v).1 hv).1

/-- The versions whose `UP` a run invokes are unapplied versions of the registry. -/
theorem Run_invoked_subset {σ : Type} (R : List (Int × Migrate σ)) (d : Datasource σ)
    (now : Int → Nat) (L : Ledger) (s : σ) :
    (Run R d now L s).invoked.map Prod.fst ⊆ unapplied R L := by
  intro v hv
  rcases applyEach_cases R d now (unapplied R L) L s (unapplied_subset_keys R L) with
    ⟨_, h2, _⟩ | ⟨pre, V, post, e, m, t, h0, _, _, _, h2, _⟩
  · have h2' : (Run R d now L s).invoked = (unapplied R L).map (fun v => (v, none)) := h2
    rw [h2'] at hv
    simpa using hv
  · have h2' : (Run R d now L s).invoked = pre.map (fun v => (v, none)) ++ [(V, some e)] := h2
    rw [h2'] at hv
    rw [h0]
    simp at hv
    rcases hv with hv | hv
    · simp [hv]
    · simp [hv]

/-- When every `UP` of the registry succeeds, a run succeeds, invokes the
unapplied versions in order and appends their entries to the ledger. -/
theorem Run_all_succeed {σ : Type} (R : List (Int × Migrate σ)) (d : Datasource σ)
    (now : Int → Nat) (L : Ledger) (s : σ)
    (hsucc : ∀ v m, (v, m) ∈ R → ∀ t, (m.UP d t).2 = none) :
    (Run R d now L s).result = none ∧
    (Run R d now L s).invoked = (unapplied R L).map (fun v => (v, none)) ∧
    (Run R d now L s).ledger = L ++ (unapplied R L).map (appliedEntry now) := by
  rcases applyEach_cases R d now (unapplied R L) L s (unapplied_subset_keys R L) with
    h | ⟨pre, V, post, e, m, t, _, hm, he, _⟩
  · exact h
  · rw [hsucc V m hm t] at he
    exact absurd he (by simp)

/-- When every `UP` invoked in a run succeeds, the run succeeds, it invoked the
unapplied versions in order and appended their entries to the ledger. -/
theorem Run_invoked_succeed {σ : Type} (R : List (Int × Migrate σ)) (d : Datasource σ)
    (now : Int → Nat) (L : Ledger) (s : σ)
    (hrun : ∀ x ∈ (Run R d now L s).invoked, x.2 = none) :
    (Run R d now L s).result = none ∧
    (Run R d now L s).invoked = (unapplied R L).map (fun v => (v, none)) ∧
    (Run R d now L s).ledger = L ++ (unapplied R L).map (appliedEntry now) := by
  rcases applyEach_cases R d now (unapplied R L) L s (unapplied_subset_keys R L) with
    h | ⟨pre, V, post, e, _, _, _, _, _, _, h2, _⟩
  · exact h
  · have h2' : (Run R d now L s).invoked =
        pre.map (fun v => (v, none)) ++ [(V, some e)] := h2
    have hmem : (V, some e) ∈ (Run R d now L s).invoked := by
      rw [h2']; simp
    exact absurd (hrun (V, some e) hmem) (by simp)

/-- C1: when every `UP` that a run of the runner on registry `R` and ledger `L`
invokes succeeds, the run succeeds and has invoked the `UP` of exactly the
versions in `keys R` minus `keys L`, each once, in strictly ascending version
order; the ledger then holds what it held before followed by the invoked
versions. Nothing is assumed of migrations the run does not invoke, nor of
store states the run does not reach. -/
theorem Run_applies_unapplied_ascending {σ : Type} (R : List (Int × Migrate σ))
    (d : Datasource σ) (now : Int → Nat) (L : Ledger) (s : σ)
    (hrun : ∀ x ∈ (Run R d now L s).invoked, x.2 = none) :
    (Run R d now L s).result = none ∧
    (∀ v : Int, ((Run R d now L s).invoked.map Prod.fst).count v =
      if v ∈ keys R ∧ v ∉ ledgerKeys L then 1 else 0) ∧
    ((Run R d now L s).invoked.map Prod.fst).Sorted (· < ·) ∧
    ledgerKeys (Run R d now L s).ledger =
      ledgerKeys L ++ (Run R d now L s).invoked.map Prod.fst := by
  obtain ⟨h1, h2, h3⟩ := Run_invoked_succeed R d now L s hrun
  have hfst : (Run R d now L s).invoked.map Prod.fst = unapplied R L := by
    rw [h2, List.map_map]
    exact (List.map_congr_left (fun _ _ => rfl)).trans (List.map_id _)
  refine ⟨h1, ?_, ?_, ?_⟩
  · intro v
    rw [hfst]
    split_ifs with hv
    · exact List.count_eq_one_of_mem (unapplied_nodup R L) ((mem_unapplied R L v).2 hv)
    · exact List.count_eq_zero_of_not_mem (fun hmem => hv ((mem_unapplied R L v).1 hmem))
  · rw [hfst]
    exact unapplied_sorted R L
  · rw [hfst, h3]
    simp only [ledgerKeys, List.map_append, List.map_map]
    congr 1
    exact (List.map_congr_left (fun _ _ => rfl)).trans (List.map_id _)

/-- Witness for C1: version 100 would fail but is already applied, so the run
invokes only version 200, which succeeds; also three succeeding migrations
written out of order with version 200 already applied, and the registry `All`
on the model of the stores from an empty ledger. -/
theorem Run_applies_unapplied_ascending_witness :
    (∀ x ∈ (Run registryMixed storeDatasource clock0 ledger100 emptyStore).invoked,
      x.2 = none) ∧
    (Run registryMixed storeDatasource clock0 ledger100 emptyStore).result = none ∧
    (Run registryMixed storeDatasource clock0 ledger100 emptyStore).invoked.map Prod.fst =
      [200] ∧
    (Run registryOk storeDatasource clock0 ledger200 emptyStore).invoked.map Prod.fst =
      [100, 300] ∧
    (Run All storeDatasource clock0 [] emptyStore).invoked.map Prod.fst =
      [20240226153000, 20241219153001] :=
  ⟨by decide,
    (Run_applies_unapplied_ascending registryMixed storeDatasource clock0 ledger100
      emptyStore (by decide)).1,
    by decide, by decide, by decide⟩

/-- C2: if during a run the `UP` of version `V` fails with error `e`, then no
version greater than `V` has its `UP` invoked, every unapplied version below
`V` is recorded as applied in the ledger (and what the ledger held before
stays), `V` is not recorded in the ledger, and the run returns the error
naming `V` with the underlying error `e`. -/
theorem Run_stops_at_first_failure {σ : Type} (R : List (Int × Migrate σ))
    (d : Datasource σ) (now : Int → Nat) (L : Ledger) (s : σ) (V : Int) (e : Error)
    (hfail : (V, some e) ∈ (Run R d now L s).invoked) :
    (∀ x ∈ (Run R d now L s).invoked, x.1 ≤ V) ∧
    (∀ v, v ∈ keys R → v ∉ ledgerKeys L → v < V →
      appliedEntry now v ∈ (Run R d now L s).ledger) ∧
    (∀ en ∈ L, en ∈ (Run R d now L s).ledger) ∧
    V ∉ ledgerKeys (Run R d now L s).ledger ∧
    (Run R d now L s).result = some (V, e) := by
  rcases applyEach_cases R d now (unapplied R L) L s (unapplied_subset_keys R L) with
    ⟨_, h2, _⟩ | ⟨pre, V', post, e', m, t, h0, _, _, h1, h2, h3⟩
  · have h2' : (Run R d now L s).invoked = (unapplied R L).map (fun v => (v, none)) := h2
    rw [h2'] at hfail
    simp at hfail
  · have h1' : (Run R d now L s).result = some (V', e') := h1
    have h2' : (Run R d now L s).invoked =
        pre.map (fun v => (v, none)) ++ [(V', some e')] := h2
    have h3' : (Run R d now L s).ledger = L ++ pre.map (appliedEntry now) := h3
    rw [h2'] at hfail
    simp at hfail
    obtain ⟨hV, he⟩ := hfail
    subst hV
    subst he
    have hsorted := unapplied_sorted R L
    rw [h0] at hsorted
    have hpre : ∀ a ∈ pre, a < V := by
      intro a ha
      exact (List.pairwise_append.1 hsorted).2.2 a ha V (by simp)
    have hpost : ∀ b ∈ post, V < b := by
      intro b hb
      exact List.rel_of_sorted_cons (List.pairwise_append.1 hsorted).2.1 b hb
    have hVun : V ∈ unapplied R L := by rw [h0]; simp
    refine ⟨?_, ?_, ?_, ?_, h1'⟩
    · intro x hx
      rw [h2'] at hx
      simp at hx
      rcases hx with ⟨a, ha, rfl⟩ | rfl
      · exact le_of_lt (hpre a ha)
      · exact le_refl _
    · intro v hvR hvL hlt
      have hv : v ∈ unapplied R L := (mem_unapplied R L v).2 ⟨hvR, hvL⟩
      rw [h0] at hv
      rw [h3']
      simp at hv
      rcases hv with hv | hv | hv
      · exact List.mem_append_right _ (List.mem_map_of_mem _ hv)
      · omega
      · have := hpost v hv
        omega
    · intro en hen
      rw [h3']
      exact List.mem_append_left _ hen
    · rw [h3']
      intro hmem
      simp [ledgerKeys, appliedEntry] at hmem
      rcases hmem with ⟨en, hen, hv⟩ | hmem
      · exact ((mem_unapplied R L _).1 hVun).2 (by
          simp only [ledgerKeys, List.mem_map]
          exact ⟨en, hen, hv⟩)
      · have := hpre _ hmem
        omega

/-- Witness for C2: `{100 succeeds, 200 fails, 300 succeeds}` on an empty ledger:
the ledger ends as `{100: applied}`, the `UP` of 300 is not invoked and the
error names 200. -/
theorem Run_stops_at_first_failure_witness :
    ((200, some "up failed") ∈
      (Run registryABC storeDatasource clock0 [] emptyStore).invoked) ∧
    (Run registryABC storeDatasource clock0 [] emptyStore).ledger =
      [⟨100, 0, Status.applied⟩] ∧
    (300 : Int) ∉ (Run registryABC storeDatasource clock0 [] emptyStore).invoked.map Prod.fst ∧
    (Run registryABC storeDatasource clock0 [] emptyStore).result =
      some (200, "up failed") :=
  ⟨by decide, by decide, by decide,
    (Run_stops_at_first_failure registryABC storeDatasource clock0 [] emptyStore 200
      "up failed" (by decide)).2.2.2.2⟩

/-- C3: a run on a ledger that already contains every key of the registry
returns success, invokes no `UP` and leaves ledger and store unchanged; and
when every `UP` succeeds, a second run right after a first one (at any later
time) invokes no `UP`, succeeds and changes nothing. -/
theorem Run_idempotent {σ : Type} (R : List (Int × Migrate σ)) (d : Datasource σ)
    (now : Int → Nat) (L : Ledger) (s : σ) :
    ((∀ v ∈ keys R, v ∈ ledgerKeys L) → Run R d now L s = ⟨L, s, [], none⟩) ∧
    ((∀ v m, (v, m) ∈ R → ∀ t, (m.UP d t).2 = none) → ∀ later : Int → Nat,
      Run R d later (Run R d now L s).ledger (Run R d now L s).store =
        ⟨(Run R d now L s).ledger, (Run R d now L s).store, [], none⟩) := by
  have hnil : ∀ (L' : Ledger) (s' : σ) (now' : Int → Nat),
      (∀ v ∈ keys R, v ∈ ledgerKeys L') → Run R d now' L' s' = ⟨L', s', [], none⟩ := by
    intro L' s' now' h
    simp [Run, unapplied_eq_nil R L' h, applyEach]
  refine ⟨hnil L s now, ?_⟩
  intro hsucc later
  apply hnil
  intro v hv
  rw [(Run_all_succeed R d now L s hsucc).2.2]
  by_cases hL : v ∈ ledgerKeys L
  · simp only [ledgerKeys, List.map_append, List.mem_append]
    exact Or.inl hL
  · have hun : v ∈ unapplied R L := (mem_unapplied R L v).2 ⟨hv, hL⟩
    simp only [ledgerKeys, List.map_append, List.mem_append, List.map_map]
    right
    exact List.mem_map.2 ⟨v, hun, rfl⟩

/-- Witness for C3: `{100: migA}` with ledger `{100: applied}`, and a second run
of three succeeding migrations. -/
theorem Run_idempotent_witness :
    (∀ v ∈ keys registryA, v ∈ ledgerKeys [⟨100, 0, Status.applied⟩]) ∧
    Run registryA storeDatasource clock0 [⟨100, 0, Status.applied⟩] emptyStore =
      ⟨[⟨100, 0, Status.applied⟩], emptyStore, [], none⟩ ∧
    (Run registryOk storeDatasource clock0
      (Run registryOk storeDatasource clock0 ledger200 emptyStore).ledger
      (Run registryOk storeDatasource clock0 ledger200 emptyStore).store).invoked = [] := by
  have h1 : ∀ v ∈ keys registryA, v ∈ ledgerKeys [⟨100, 0, Status.applied⟩] := by decide
  have h2 : ∀ v m, (v, m) ∈ registryOk → ∀ t, (m.UP storeDatasource t).2 = none := by
    intro v m hm t
    simp only [registryOk, List.mem_cons, Prod.mk.injEq, List.mem_nil_iff, or_false] at hm
    rcases hm with ⟨_, rfl⟩ | ⟨_, rfl⟩ | ⟨_, rfl⟩ <;> rfl
  refine ⟨h1, (Run_idempotent registryA storeDatasource clock0 _ emptyStore).1 h1, ?_⟩
  rw [(Run_idempotent registryOk storeDatasource clock0 ledger200 emptyStore).2 h2 clock0]

/-! ## The timestamp convention -/

theorem lt_iff_year (a b : Nat) : a < b ↔ a / 10000000000 < b / 10000000000 ∨
    (a / 10000000000 = b / 10000000000 ∧ a % 10000000000 < b % 10000000000) := by
  omega

theorem lt_iff_month (a b : Nat) : a % 10000000000 < b % 10000000000 ↔
    a / 100000000 % 100 < b / 100000000 % 100 ∨
    (a / 100000000 % 100 = b / 100000000 % 100 ∧ a % 100000000 < b % 100000000) := by
  omega

theorem lt_iff_day (a b : Nat) : a % 100000000 < b % 100000000 ↔
    a / 1000000 % 100 < b / 1000000 % 100 ∨
    (a / 1000000 % 100 = b / 1000000 % 100 ∧ a % 1000000 < b % 1000000) := by
  omega

theorem lt_iff_hour (a b : Nat) : a % 1000000 < b % 1000000 ↔
    a / 10000 % 100 < b / 10000 % 100 ∨
    (a / 10000 % 100 = b / 10000 % 100 ∧ a % 10000 < b % 10000) := by
  omega

theorem lt_iff_minute (a b : Nat) : a % 10000 < b % 10000 ↔
    a / 100 % 100 < b / 100 % 100 ∨
    (a / 100 % 100 = b / 100 % 100 ∧ a % 100 < b % 100) := by
  omega

/-- For versions that are not negative, ascending version order is the
chronological order of the decoded stamps. -/
theorem version_order_chronological (v w : Int) (hv : 0 ≤ v) (hw : 0 ≤ w) :
    v < w ↔ (decodeStamp v).earlier (decodeStamp w) := by
  obtain ⟨a, rfl⟩ := Int.eq_ofNat_of_zero_le hv
  obtain ⟨b, rfl⟩ := Int.eq_ofNat_of_zero_le hw
  simp only [Stamp.earlier, decodeStamp, Int.toNat_ofNat, Nat.cast_lt]
  rw [← lt_iff_minute, ← lt_iff_hour, ← lt_iff_day, ← lt_iff_month, ← lt_iff_year]

/-- A version that follows the convention is positive. -/
theorem isTimestampVersion_pos (v : Int) (h : isTimestampVersion v = true) : 0 < v := by
  simp only [isTimestampVersion, Bool.and_eq_true, decide_eq_true_eq] at h
  exact h.1.1.1.1.1.1.1.1.1

/-- C7: every version key of the registry `All` follows the convention
`YYYYMMDDHHMMSS` (a positive integer of 14 decimal digits whose groups are a
valid calendar date and time of day), and between keys of the registry
ascending version order is chronological order. -/
theorem All_versions_are_timestamps {σ : Type} (v : Int) (m : Migrate σ)
    (h : (v, m) ∈ (All : List (Int × Migrate σ))) :
    isTimestampVersion v = true ∧
    ∀ (w : Int) (m' : Migrate σ), (w, m') ∈ (All : List (Int × Migrate σ)) →
      (v < w ↔ (decodeStamp v).earlier (decodeStamp w)) := by
  have hall : ∀ (u : Int) (n : Migrate σ), (u, n) ∈ (All : List (Int × Migrate σ)) →
      isTimestampVersion u = true := by
    intro u n hu
    rcases (mem_All_iff u n).1 hu with ⟨rfl, _⟩ | ⟨rfl, _⟩ <;> decide
  exact ⟨hall v m h, fun w m' hw =>
    version_order_chronological v w
      (le_of_lt (isTimestampVersion_pos v (hall v m h)))
      (le_of_lt (isTimestampVersion_pos w (hall w m' hw)))⟩

/-- Witness for C7: the key of the table migration, compared with the key of
the Redis migration. -/
theorem All_versions_are_timestamps_witness :
    (((20240226153000 : Int), (createTableEmployee : Migrate Store)) ∈
      (All : List (Int × Migrate Store))) ∧
    isTimestampVersion 20240226153000 = true ∧
    decodeStamp 20240226153000 = ⟨2024, 2, 26, 15, 30, 0⟩ ∧
    ((20240226153000 : Int) < 20241219153001 ↔
      (decodeStamp 20240226153000).earlier (decodeStamp 20241219153001)) :=
  ⟨by simp [All],
    (All_versions_are_timestamps 20240226153000 (createTableEmployee : Migrate Store)
      (by simp [All])).1,
    by decide,
    (All_versions_are_timestamps 20240226153000 (createTableEmployee : Migrate Store)
      (by simp [All])).2 20241219153001 initRedisLuaScript (by simp [All])⟩

/-! ## Pagination in `userEntity.GetAll` -/

set_option maxRecDepth 100000 in
theorem createTableEmployee_ne_createPlayerTable :
    (createTableEmployee : Migrate Store) ≠ createPlayerTable := by
  intro h
  have h2 := congrArg (fun m : Migrate Store => (m.UP storeDatasource emptyStore).2) h
  revert h2
  decide

set_option maxRecDepth 100000 in
theorem initRedisLuaScript_ne_createPlayerTable :
    (initRedisLuaScript : Migrate Store) ≠ createPlayerTable := by
  intro h
  have h2 := congrArg (fun m : Migrate Store => (m.UP storeDatasource emptyStore).2) h
  revert h2
  decide

/-- C10: `All` is a constant registry with exactly the two version keys
20240226153000 and 20241219153001; the first is `createTableEmployee`, whose
`UP` on the model of the stores creates table `user`, the second is
`initRedisLuaScript`, whose `UP` sets the Redis key `gift_counter` to 100000;
`createPlayerTable` is not a value of the registry (nor is the version of its
file a key), and a run of the runner on `All` invokes the `UP` of no version
other than those two. -/
theorem All_constant_registry :
    (∀ σ : Type, keys (All : List (Int × Migrate σ)) = [20240226153000, 20241219153001]) ∧
    (∀ σ : Type,
      (All : List (Int × Migrate σ)).lookup 20240226153000 = some createTableEmployee ∧
      (All : List (Int × Migrate σ)).lookup 20241219153001 = some initRedisLuaScript) ∧
    (∀ s : Store, (createTableEmployee.UP storeDatasource s).2 = none ∧
      "user" ∈ (createTableEmployee.UP storeDatasource s).1.tables) ∧
    (∀ s : Store, (initRedisLuaScript.UP storeDatasource s).2 = none ∧
      (initRedisLuaScript.UP storeDatasource s).1.redis.lookup "gift_counter" =
        some 100000) ∧
    (createPlayerTable : Migrate Store) ∉ (All : List (Int × Migrate Store)).map Prod.snd ∧
    (20241220153000 : Int) ∉ keys (All : List (Int × Migrate Store)) ∧
    (∀ (σ : Type) (d : Datasource σ) (now : Int → Nat) (L : Ledger) (s : σ),
      (Run All d now L s).invoked.map Prod.fst ⊆ [20240226153000, 20241219153001]) := by
  refine ⟨fun σ => by simp [keys, All], fun σ => ⟨by simp [All, List.lookup_cons], ?_⟩,
    ?_, ?_, ?_, by decide, ?_⟩
  · have hne : ((20241219153001 : Int) == 20240226153000) = false := by decide
    simp [All, List.lookup_cons, hne]
  · intro s
    rw [createTableEmployee_UP_store]
    by_cases ht : "user" ∈ s.tables <;> simp [ht]
  · intro s
    rw [initRedisLuaScript_UP_store]
    simp
  · intro hmem
    simp only [All, List.map_cons, List.map_nil, List.mem_cons, List.mem_nil_iff,
      or_false] at hmem
    rcases hmem with h | h
    · exact createTableEmployee_ne_createPlayerTable h.symm
    · exact initRedisLuaScript_ne_createPlayerTable h.symm
  · intro σ d now L s v hv
    have hk := unapplied_subset_keys All L v (Run_invoked_subset All d now L s hv)
    simpa [keys, All] using hk

end GofrPlay
